import Mathlib

/-!
Verification of the torrent stream server (server.js).

The definitions below are a shallow embedding of the playback-driven
piece-prioritization and range-streaming subsystem of server.js.
JavaScript numbers appearing in the relevant code paths are integers
(byte offsets, lengths, piece indices), so they are modelled as Nat/Int;
a JavaScript number that can be NaN (the result of parseInt on a
non-numeric string, and anything computed from it) is modelled as
Option Int with none standing for NaN.  Time values sent to the
playback-position endpoint are modelled as rationals, with Math.floor
becoming Int.floor.
-/

namespace TorrentStream

/-- A JavaScript number that may be NaN: none stands for NaN. -/
abbrev JsNum := Option Int

/-- JavaScript subtraction on possibly-NaN numbers: NaN propagates. -/
def jsSub : JsNum → JsNum → JsNum
  | some a, some b => some (a - b)
  | _, _ => none

/-- JavaScript increment by one on a possibly-NaN number: NaN propagates. -/
def jsAdd1 : JsNum → JsNum
  | some a => some (a + 1)
  | none => none

/-- Value of a list of decimal digit characters, most significant first. -/
def digitsToNat (ds : List Char) : Nat :=
  ds.foldl (fun acc c => acc * 10 + (c.toNat - ('0').toNat)) 0

/-- Longest leading run of decimal digits, as a number; none when empty.
This is the digit-consuming part of JavaScript parseInt(s, 10). -/
def jsParseIntPos (cs : List Char) : Option Nat :=
  let ds := cs.takeWhile (fun c => c.isDigit)
  if ds.isEmpty then none else some (digitsToNat ds)

/-- JavaScript parseInt(s, 10) on a list of characters: skip leading
whitespace, optional sign, then the longest run of decimal digits;
NaN (none) when no digits are found. -/
def jsParseIntChars (cs : List Char) : Option Int :=
  let rest := cs.dropWhile (fun c => c.isWhitespace)
  match rest with
  | '-' :: tl => (jsParseIntPos tl).map (fun n => -(n : Int))
  | '+' :: tl => (jsParseIntPos tl).map (fun n => (n : Int))
  | _ => (jsParseIntPos rest).map (fun n => (n : Int))

/-- JavaScript parseInt(s, 10). -/
def jsParseInt (s : String) : Option Int :=
  jsParseIntChars s.data

/-- Remove the first occurrence of pat from a character list, as the
JavaScript replace with a non-global literal regex does. -/
def removeFirstOcc (pat : List Char) : List Char → List Char
  | [] => []
  | c :: cs =>
    if pat.isPrefixOf (c :: cs) then (c :: cs).drop pat.length
    else c :: removeFirstOcc pat cs

/-- Split a character list on a separator character, as the JavaScript
String.split does: the empty list yields one empty field. -/
def splitChar (sep : Char) : List Char → List (List Char)
  | [] => [[]]
  | c :: cs =>
    if c = sep then [] :: splitChar sep cs
    else
      match splitChar sep cs with
      | [] => [[c]]
      | g :: gs => (c :: g) :: gs

/-- Index of the last occurrence of a character in a list, if any. -/
def lastIdxOf (target : Char) : List Char → Option Nat
  | [] => none
  | c :: cs =>
    match lastIdxOf target cs with
    | some i => some (i + 1)
    | none => if c = target then some 0 else none

/-- Node path.extname on a bare file name: the suffix starting at the
last dot, empty when there is no dot or the only dot is the leading
character. -/
def extname (s : String) : String :=
  match lastIdxOf ('.') s.data with
  | none => ("")
  | some 0 => ("")
  | some (i + 1) => String.mk (s.data.drop (i + 1))

/-- The content-type table of the stream endpoint (server.js lines 354-363). -/
def contentTypes : List (String × String) :=
  [ ((".mp4"), ("video/mp4"))
  , ((".mkv"), ("video/x-matroska"))
  , ((".avi"), ("video/x-msvideo"))
  , ((".webm"), ("video/webm"))
  , ((".mov"), ("video/quicktime"))
  , ((".wmv"), ("video/x-ms-wmv"))
  , ((".flv"), ("video/x-flv"))
  , ((".m4v"), ("video/x-m4v")) ]

/-- JavaScript toLowerCase, character by character. -/
def toLowerString (s : String) : String :=
  String.mk (s.data.map Char.toLower)

/-- contentTypes[ext] with the application/octet-stream fallback,
where ext is path.extname(file.name).toLowerCase(). -/
def contentTypeFor (name : String) : String :=
  match contentTypes.lookup (toLowerString (extname name)) with
  | some t => t
  | none => ("application/octet-stream")

/-- A file of the active torrent: name, byte offset of the file within
the concatenated torrent byte stream, and byte length. -/
structure TFile where
  name : String
  offset : Nat
  length : Nat
deriving DecidableEq

/-- The active torrent handle as consumed by server.js: piece length,
ordered file list, per-piece availability bitfield (absent until
metadata arrives), presence of the pieces array, and the ready flag. -/
structure Torrent where
  pieceLength : Nat
  files : List TFile
  bitfield : Option (Nat → Bool)
  pieces : Bool
  ready : Bool

/-- The process-wide playback position slot (server.js line 108):
fileIndex is null initially, bytePosition starts at 0. -/
structure PlaybackPosition where
  fileIndex : Option Int
  bytePosition : Int
deriving DecidableEq

/-- The mutable server state relevant to the claims: the current torrent
reference and the current playback position. -/
structure ServerState where
  currentTorrent : Option Torrent
  currentPlaybackPosition : PlaybackPosition

/-- The initial value of currentPlaybackPosition. -/
def initialPlaybackPosition : PlaybackPosition :=
  { fileIndex := none, bytePosition := 0 }

/-- JavaScript array access files[i] for an integer index: undefined
(none) for negative or out-of-range indices. -/
def jsFileAccess (files : List TFile) (i : Int) : Option TFile :=
  if 0 ≤ i then files.get? i.toNat else none

/-- JavaScript array access files[i] where i may be NaN: files[NaN] is
undefined. -/
def jsFileAccessNum (files : List TFile) : JsNum → Option TFile
  | none => none
  | some i => jsFileAccess files i

/-- The loop of getBufferAhead (server.js lines 148-158): walk forward
piece by piece while the bitfield has the piece, accumulating the
overlap between the piece span and the remaining file span.  The fuel
argument encodes the loop bound currentPiece <= endPiece: it is
endPiece + 1 - currentPiece at entry and decreases as currentPiece
increases. -/
def getBufferAheadLoop (bitfield : Nat → Bool) (pieceLength absoluteStart fileEnd : Nat) :
    Nat → Nat → Int
  | _, 0 => 0
  | currentPiece, fuel + 1 =>
    if bitfield currentPiece then
      let pieceStart := currentPiece * pieceLength
      let pieceEnd := pieceStart + pieceLength
      let rangeStart := max pieceStart absoluteStart
      let rangeEnd := min pieceEnd fileEnd
      ((rangeEnd : Int) - (rangeStart : Int)) +
        getBufferAheadLoop bitfield pieceLength absoluteStart fileEnd (currentPiece + 1) fuel
    else 0

/-- getBufferAhead (server.js lines 135-161): how many contiguous bytes
are buffered ahead of currentByte in the given file, given the current
torrent; 0 when there is no torrent or no bitfield. -/
def getBufferAhead (currentTorrent : Option Torrent) (file : TFile) (currentByte : Nat) : Int :=
  match currentTorrent with
  | none => 0
  | some tor =>
    match tor.bitfield with
    | none => 0
    | some bitfield =>
      let pieceLength := tor.pieceLength
      let fileOffset := file.offset
      let absoluteStart := fileOffset + currentByte
      let fileEnd := fileOffset + file.length
      let currentPiece := absoluteStart / pieceLength
      let endPiece := fileEnd / pieceLength
      getBufferAheadLoop bitfield pieceLength absoluteStart fileEnd currentPiece
        (endPiece + 1 - currentPiece)

/-- prioritizePiecesFrom (server.js lines 111-132): the urgent window
(startPiece, criticalEnd) passed to torrent.critical, or none when there
is no torrent or no pieces array.  Math.ceil(5 * 1024 * 1024 /
pieceLength) for a positive pieceLength is (5 * 1024 * 1024 +
pieceLength - 1) / pieceLength in natural division. -/
def prioritizePiecesFrom (currentTorrent : Option Torrent) (file : TFile) (startByte : Nat) :
    Option (Nat × Nat) :=
  match currentTorrent with
  | none => none
  | some tor =>
    if tor.pieces = false then none
    else
      let pieceLength := tor.pieceLength
      let fileOffset := file.offset
      let absoluteStart := fileOffset + startByte
      let fileEnd := fileOffset + file.length
      let startPiece := absoluteStart / pieceLength
      let endPiece := fileEnd / pieceLength
      let piecesToPrioritize := min ((5 * 1024 * 1024 + pieceLength - 1) / pieceLength) 50
      let criticalEnd := min (startPiece + piecesToPrioritize) endPiece
      some (startPiece, criticalEnd)

/-- destroyCurrentTorrent (server.js lines 92-105): clear the current
torrent reference; the engine-side destroy and temp-directory cleanup
are external side effects with no footprint in this state.  The
playback position slot is not touched. -/
def destroyCurrentTorrent (st : ServerState) : ServerState :=
  match st.currentTorrent with
  | some _ => { st with currentTorrent := none }
  | none => st

/-- The JSON body sent by DELETE /api/torrent. -/
structure DeleteResponse where
  success : Bool
deriving DecidableEq

/-- DELETE /api/torrent (server.js lines 291-294): destroy the current
torrent, then respond success true. -/
def deleteTorrentEndpoint (st : ServerState) : DeleteResponse × ServerState :=
  ({ success := true }, destroyCurrentTorrent st)

/-- The state after the success path of POST /api/torrent (server.js
lines 225-288): the previous torrent is destroyed, then the engine
handle returned by client.add becomes the current torrent.  No other
state field is written by the handler. -/
def postTorrentEndpointState (st : ServerState) (newTorrent : Torrent) : ServerState :=
  { destroyCurrentTorrent st with currentTorrent := some newTorrent }

/-- Outcome of POST /api/playback-position. -/
inductive PlaybackResponse where
  | noActiveTorrent
  | fileNotFound
  | success (bytePosition : Int)
deriving DecidableEq

/-- POST /api/playback-position (server.js lines 313-334): require an
active ready torrent and an existing file, convert the time position to
a byte position by linear interpolation, store it, and answer with it.
The prioritizePiecesFrom call made by the handler is a fire-and-forget
hint with no footprint in this state. -/
def playbackPositionEndpoint (st : ServerState) (fileIndex : Int) (currentTime duration : ℚ) :
    PlaybackResponse × ServerState :=
  match st.currentTorrent with
  | none => (PlaybackResponse.noActiveTorrent, st)
  | some tor =>
    if tor.ready = false then (PlaybackResponse.noActiveTorrent, st)
    else
      match jsFileAccess tor.files fileIndex with
      | none => (PlaybackResponse.fileNotFound, st)
      | some file =>
        let bytePosition : Int :=
          if 0 < duration then Int.floor (currentTime / duration * (file.length : ℚ)) else 0
        (PlaybackResponse.success bytePosition,
          { st with currentPlaybackPosition :=
              { fileIndex := some fileIndex, bytePosition := bytePosition } })

/-- Parsing of the Range header value (server.js lines 395-397):
strip the first occurrence of the text bytes=, split on the dash,
parseInt the first part, and take the second part when truthy or
default to fileSize - 1. -/
def parseRangeParts (range : String) (fileSize : Nat) : JsNum × JsNum :=
  let parts := splitChar ('-') (removeFirstOcc (("bytes=").data) range.data)
  let start := jsParseIntChars (parts.headD [])
  let endVal : JsNum :=
    match parts.get? 1 with
    | some p => if p.isEmpty then some ((fileSize : Int) - 1) else jsParseIntChars p
    | none => some ((fileSize : Int) - 1)
  (start, endVal)

/-- Response of GET /stream/:fileIndex, keeping status and the headers
the claims talk about.  The streamed body and stream cleanup are
external I/O. -/
inductive StreamResponse where
  | notFound (error : String)
  | ranged (start endVal chunkSize : JsNum) (fileSize : Nat) (contentType : String)
  | unranged (fileSize : Nat) (contentType : String)
deriving DecidableEq

/-- HTTP status of a stream response. -/
def StreamResponse.status : StreamResponse → Nat
  | StreamResponse.notFound _ => 404
  | StreamResponse.ranged _ _ _ _ _ => 206
  | StreamResponse.unranged _ _ => 200

/-- Content-Range header of a stream response: start, end and the total
size, present only on the ranged path. -/
def StreamResponse.contentRange : StreamResponse → Option (JsNum × JsNum × Nat)
  | StreamResponse.ranged s e _ size _ => some (s, e, size)
  | _ => none

/-- Content-Length header of a stream response, absent on the 404 path. -/
def StreamResponse.contentLength : StreamResponse → Option JsNum
  | StreamResponse.notFound _ => none
  | StreamResponse.ranged _ _ chunk _ _ => some chunk
  | StreamResponse.unranged size _ => some (some (size : Int))

/-- Accept-Ranges header of a stream response, present only on the
ranged path. -/
def StreamResponse.acceptRanges : StreamResponse → Option String
  | StreamResponse.ranged _ _ _ _ _ => some ("bytes")
  | _ => none

/-- GET /stream/:fileIndex (server.js lines 337-418): require an active
ready torrent, look up the file by the parsed index parameter, then
serve the ranged path when the Range header is truthy (present and
non-empty) and the unranged path otherwise. -/
def streamEndpoint (currentTorrent : Option Torrent) (fileIndexParam : String)
    (rangeHeader : Option String) : StreamResponse :=
  match currentTorrent with
  | none => StreamResponse.notFound ("No active torrent")
  | some tor =>
    if tor.ready = false then StreamResponse.notFound ("No active torrent")
    else
      match jsFileAccessNum tor.files (jsParseInt fileIndexParam) with
      | none => StreamResponse.notFound ("File not found")
      | some file =>
        let fileSize := file.length
        let contentType := contentTypeFor file.name
        match rangeHeader with
        | some range =>
          if range = ("") then StreamResponse.unranged fileSize contentType
          else
            let p := parseRangeParts range fileSize
            StreamResponse.ranged p.1 p.2 (jsAdd1 (jsSub p.2 p.1)) fileSize contentType
        | none => StreamResponse.unranged fileSize contentType

/-- Concrete fixture: a 10000-byte video file at offset 0. -/
def F1 : TFile := { name := ("movie.mp4"), offset := 0, length := 10000 }

/-- Concrete fixture: a ready torrent holding F1. -/
def T1 : Torrent :=
  { pieceLength := 16384, files := [F1], bitfield := none, pieces := true, ready := true }

/-- Concrete fixture: a trivial ready torrent for the playback-position claims. -/
def T2 : Torrent :=
  { pieceLength := 4, files := [], bitfield := none, pieces := false, ready := true }

/-- Concrete fixture: a server state with an active torrent and a reported
playback position (fileIndex 0, bytePosition 5). -/
def ST2 : ServerState :=
  { currentTorrent := some T2,
    currentPlaybackPosition := { fileIndex := some 0, bytePosition := 5 } }

/-- Concrete fixture: a 30-byte file at offset 0 over 10-byte pieces. -/
def F3 : TFile := { name := ("a.mp4"), offset := 0, length := 30 }

/-- Concrete fixture: a torrent over F3 whose piece 0 is missing and all
later pieces are present. -/
def T3 : Torrent :=
  { pieceLength := 10, files := [F3], bitfield := some (fun p => p != 0),
    pieces := true, ready := true }

/-- Concrete fixture: a 100-byte file at offset 0, exactly ten 10-byte
pieces, so the file end falls on a piece boundary. -/
def F4 : TFile := { name := ("a.mp4"), offset := 0, length := 100 }

/-- Concrete fixture: a torrent over F4 with 10-byte pieces. -/
def T4 : Torrent :=
  { pieceLength := 10, files := [F4], bitfield := none, pieces := true, ready := true }

/-- Concrete fixture: a 95-byte file at offset 0, whose end does not fall
on a piece boundary of 10-byte pieces. -/
def F4w : TFile := { name := ("a.mp4"), offset := 0, length := 95 }

/-- Concrete fixture: a torrent over F4w with 10-byte pieces. -/
def T4w : Torrent :=
  { pieceLength := 10, files := [F4w], bitfield := none, pieces := true, ready := true }

/-- Concrete fixture: a torrent over F3 with every piece available. -/
def T5 : Torrent :=
  { pieceLength := 10, files := [F3], bitfield := some (fun _ => true),
    pieces := true, ready := true }

/-- Concrete fixture: a 100 MiB video file at offset 0. -/
def F7 : TFile := { name := ("m.mp4"), offset := 0, length := 104857600 }

/-- Concrete fixture: a ready torrent holding F7. -/
def T7 : Torrent :=
  { pieceLength := 16384, files := [F7], bitfield := none, pieces := true, ready := true }

/-- Concrete fixture: a server state whose active torrent is T7. -/
def ST7 : ServerState :=
  { currentTorrent := some T7, currentPlaybackPosition := initialPlaybackPosition }

/-- Concrete fixture: a server state with no active torrent. -/
def ST7none : ServerState :=
  { currentTorrent := none, currentPlaybackPosition := initialPlaybackPosition }

/-- Concrete fixture: a server state with no active torrent, for the
delete-idempotence claim. -/
def ST10 : ServerState :=
  { currentTorrent := none, currentPlaybackPosition := initialPlaybackPosition }

end TorrentStream

namespace TorrentStream

/-- Unfolding equation for the loop at zero fuel. -/
theorem getBufferAheadLoop_zero (bitfield : Nat → Bool) (pl a fE cur : Nat) :
    getBufferAheadLoop bitfield pl a fE cur 0 = 0 := rfl

/-- Unfolding equation for the loop at positive fuel. -/
theorem getBufferAheadLoop_succ (bitfield : Nat → Bool) (pl a fE cur n : Nat) :
    getBufferAheadLoop bitfield pl a fE cur (n + 1) =
      if bitfield cur then
        ((min (cur * pl + pl) fE : Nat) : Int) - ((max (cur * pl) a : Nat) : Int) +
          getBufferAheadLoop bitfield pl a fE (cur + 1) n
      else 0 := rfl

/-- The loop returns 0 as soon as the first piece it checks is missing. -/
theorem getBufferAheadLoop_first_unavail (bitfield : Nat → Bool) (pl a fE cur k : Nat)
    (h : bitfield cur = false) : getBufferAheadLoop bitfield pl a fE cur k = 0 := by
  cases k with
  | zero => rfl
  | succ n => rw [getBufferAheadLoop_succ, if_neg (by simp [h])]

/-- Every byte position below a multiple of the piece length is below the
next multiple after its own piece. -/
theorem lt_div_succ_mul (a pl : Nat) (h : 0 < pl) : a < (a / pl + 1) * pl := by
  have h1 := Nat.div_add_mod a pl
  have h2 : a % pl < pl := Nat.mod_lt _ h
  calc a = pl * (a / pl) + a % pl := h1.symm
    _ < pl * (a / pl) + pl := Nat.add_lt_add_left h2 _
    _ = (a / pl + 1) * pl := by ring

/-- A piece index at most the quotient starts at or before the dividend. -/
theorem mul_le_of_le_div (x fE pl : Nat) (h : x ≤ fE / pl) : x * pl ≤ fE :=
  le_trans (Nat.mul_le_mul_right pl h) (Nat.div_mul_le_self fE pl)

/-- The loop value is nonnegative whenever the start position lies at or
before the file end and inside or before the first checked piece, and
every checked piece starts at or before the file end. -/
theorem getBufferAheadLoop_nonneg (bitfield : Nat → Bool) (pl a fE : Nat) :
    ∀ (k cur : Nat), a ≤ fE → a ≤ (cur + 1) * pl →
      (∀ j, j < k → (cur + j) * pl ≤ fE) →
      0 ≤ getBufferAheadLoop bitfield pl a fE cur k := by
  intro k
  induction k with
  | zero => intro cur _ _ _; rw [getBufferAheadLoop_zero]
  | succ n ih =>
    intro cur ha hb hc
    rw [getBufferAheadLoop_succ]
    by_cases h : bitfield cur = true
    · rw [if_pos h]
      have h0 : cur * pl ≤ fE := by simpa using hc 0 (Nat.succ_pos n)
      rw [show (cur + 1) * pl = cur * pl + pl from by ring] at hb
      have hterm : (max (cur * pl) a : Nat) ≤ min (cur * pl + pl) fE := by omega
      have hrest : 0 ≤ getBufferAheadLoop bitfield pl a fE (cur + 1) n := by
        apply ih (cur + 1) ha
        · have : (cur + 1 + 1) * pl = cur * pl + pl + pl := by ring
          rw [this]; omega
        · intro j hj
          have := hc (j + 1) (by omega)
          rwa [show cur + (j + 1) = cur + 1 + j from by omega] at this
      have : (0 : Int) ≤ ((min (cur * pl + pl) fE : Nat) : Int) - ((max (cur * pl) a : Nat) : Int) :=
        sub_nonneg.mpr (Nat.cast_le.mpr hterm)
      linarith
    · rw [if_neg h]

/-- The loop value never exceeds the bytes between the start position and
the file end. -/
theorem getBufferAheadLoop_le (bitfield : Nat → Bool) (pl a fE : Nat) :
    ∀ (k cur : Nat),
      getBufferAheadLoop bitfield pl a fE cur k ≤
        (fE : Int) - ((min fE (max (cur * pl) a) : Nat) : Int) := by
  intro k
  induction k with
  | zero =>
    intro cur
    rw [getBufferAheadLoop_zero]
    have : (min fE (max (cur * pl) a) : Nat) ≤ fE := min_le_left _ _
    have := Nat.cast_le (α := Int) |>.mpr this
    linarith
  | succ n ih =>
    intro cur
    rw [getBufferAheadLoop_succ]
    by_cases h : bitfield cur = true
    · rw [if_pos h]
      have hr := ih (cur + 1)
      rw [show (cur + 1) * pl = cur * pl + pl from by ring] at hr
      have key : min (cur * pl + pl) fE + min fE (max (cur * pl) a) ≤
          max (cur * pl) a + min fE (max (cur * pl + pl) a) := by omega
      have keyZ := Nat.cast_le (α := Int) |>.mpr key
      push_cast at keyZ
      push_cast
      push_cast at hr
      linarith
    · rw [if_neg h]
      have : (min fE (max (cur * pl) a) : Nat) ≤ fE := min_le_left _ _
      have := Nat.cast_le (α := Int) |>.mpr this
      linarith

/-- Moving the start position forward without changing the start piece can
only shrink the loop value. -/
theorem getBufferAheadLoop_mono_abs (bitfield : Nat → Bool) (pl fE : Nat) :
    ∀ (k cur a1 a2 : Nat), a1 ≤ a2 →
      getBufferAheadLoop bitfield pl a2 fE cur k ≤ getBufferAheadLoop bitfield pl a1 fE cur k := by
  intro k
  induction k with
  | zero => intro cur a1 a2 _; rw [getBufferAheadLoop_zero, getBufferAheadLoop_zero]
  | succ n ih =>
    intro cur a1 a2 h12
    rw [getBufferAheadLoop_succ, getBufferAheadLoop_succ]
    by_cases h : bitfield cur = true
    · rw [if_pos h, if_pos h]
      have hmax : (max (cur * pl) a1 : Nat) ≤ max (cur * pl) a2 :=
        max_le_max le_rfl h12
      have h1 : ((max (cur * pl) a2 : Nat) : Int) ≥ ((max (cur * pl) a1 : Nat) : Int) :=
        Nat.cast_le.mpr hmax
      have h2 := ih (cur + 1) a1 a2 h12
      linarith
    · rw [if_neg h, if_neg h]

/-- Dropping the first piece of the window can only shrink the loop value
when that piece is available and its span meets the remaining range. -/
theorem getBufferAheadLoop_step (bitfield : Nat → Bool) (pl a fE cur k : Nat)
    (hav : bitfield cur = true) (h0 : cur * pl ≤ fE) (h1 : a ≤ (cur + 1) * pl)
    (h2 : a ≤ fE) :
    getBufferAheadLoop bitfield pl a fE (cur + 1) k ≤
      getBufferAheadLoop bitfield pl a fE cur (k + 1) := by
  rw [getBufferAheadLoop_succ, if_pos hav]
  rw [show (cur + 1) * pl = cur * pl + pl from by ring] at h1
  have hterm : (max (cur * pl) a : Nat) ≤ min (cur * pl + pl) fE := by omega
  have : (0 : Int) ≤ ((min (cur * pl + pl) fE : Nat) : Int) - ((max (cur * pl) a : Nat) : Int) :=
    sub_nonneg.mpr (Nat.cast_le.mpr hterm)
  linarith

/-- Starting the loop later inside a run of available pieces can only
shrink its value, for a fixed start position and a fuel that tracks the
fixed end piece. -/
theorem getBufferAheadLoop_walk (bitfield : Nat → Bool) (pl a fE E : Nat) :
    ∀ (d cur : Nat), (∀ j, j < d → bitfield (cur + j) = true) →
      (∀ j, j < d → (cur + j) * pl ≤ fE) →
      a ≤ (cur + 1) * pl → a ≤ fE → cur + d ≤ E + 1 →
      getBufferAheadLoop bitfield pl a fE (cur + d) (E + 1 - (cur + d)) ≤
        getBufferAheadLoop bitfield pl a fE cur (E + 1 - cur) := by
  intro d
  induction d with
  | zero => intro cur _ _ _ _ _; rw [Nat.add_zero]
  | succ n ih =>
    intro cur hav hml ha1 hafE hE
    have hcurE : cur ≤ E := by omega
    have step1 : getBufferAheadLoop bitfield pl a fE (cur + (n + 1)) (E + 1 - (cur + (n + 1))) ≤
        getBufferAheadLoop bitfield pl a fE (cur + 1) (E + 1 - (cur + 1)) := by
      rw [show cur + (n + 1) = cur + 1 + n from by omega]
      apply ih (cur + 1)
      · intro j hj
        have := hav (j + 1) (by omega)
        rwa [show cur + (j + 1) = cur + 1 + j from by omega] at this
      · intro j hj
        have := hml (j + 1) (by omega)
        rwa [show cur + (j + 1) = cur + 1 + j from by omega] at this
      · have hmono : (cur + 1) * pl ≤ (cur + 1 + 1) * pl :=
          Nat.mul_le_mul_right pl (by omega)
        exact le_trans ha1 hmono
      · exact hafE
      · omega
    have step2 : getBufferAheadLoop bitfield pl a fE (cur + 1) (E + 1 - (cur + 1)) ≤
        getBufferAheadLoop bitfield pl a fE cur (E + 1 - cur) := by
      rw [show E + 1 - cur = (E - cur) + 1 from by omega,
          show E + 1 - (cur + 1) = E - cur from by omega]
      exact getBufferAheadLoop_step bitfield pl a fE cur (E - cur)
        (hav 0 (Nat.succ_pos n)) (by simpa using hml 0 (Nat.succ_pos n)) ha1 hafE
    exact le_trans step1 step2

/-- Exact value of the loop when every checked piece is available, the
fuel covers the file end, and the start position lies inside or before
the first checked piece. -/
theorem getBufferAheadLoop_full (bitfield : Nat → Bool) (pl a fE : Nat) :
    ∀ (k cur : Nat), 0 < k → (∀ j, j < k → bitfield (cur + j) = true) →
      a ≤ (cur + 1) * pl → (∀ j, j < k → (cur + j) * pl ≤ fE) →
      fE ≤ (cur + k) * pl →
      getBufferAheadLoop bitfield pl a fE cur k =
        (fE : Int) - ((max (cur * pl) a : Nat) : Int) := by
  intro k
  induction k with
  | zero => intro cur hk; omega
  | succ n ih =>
    intro cur _ hav ha1 hml hend
    rw [getBufferAheadLoop_succ, if_pos (by simpa using hav 0 (Nat.succ_pos n))]
    cases n with
    | zero =>
      rw [getBufferAheadLoop_zero]
      have hminEq : min (cur * pl + pl) fE = fE := by
        rw [show cur + 1 = cur + 0 + 1 from by omega] at hend
        have : fE ≤ cur * pl + pl := by
          have h := hend
          rw [show (cur + 0 + 1) * pl = cur * pl + pl from by ring] at h
          exact h
        exact min_eq_right this
      rw [hminEq]; ring
    | succ m =>
      have h1 : cur * pl + pl ≤ fE := by
        have := hml 1 (by omega)
        rw [show (cur + 1) * pl = cur * pl + pl from by ring] at this
        exact this
      rw [min_eq_left h1]
      have hrest := ih (cur + 1) (Nat.succ_pos m)
        (by intro j hj
            have := hav (j + 1) (by omega)
            rwa [show cur + (j + 1) = cur + 1 + j from by omega] at this)
        (le_trans ha1 (Nat.mul_le_mul_right pl (by omega)))
        (by intro j hj
            have := hml (j + 1) (by omega)
            rwa [show cur + (j + 1) = cur + 1 + j from by omega] at this)
        (by rwa [show cur + 1 + (m + 1) = cur + (m + 1 + 1) from by omega])
      rw [hrest]
      have hmax : max ((cur + 1) * pl) a = (cur + 1) * pl := max_eq_left ha1
      rw [hmax, show (cur + 1) * pl = cur * pl + pl from by ring]
      push_cast
      ring

end TorrentStream

namespace TorrentStream

/-- Unfolded form of getBufferAhead for an active torrent with a bitfield. -/
theorem getBufferAhead_eq (tor : Torrent) (bitfield : Nat → Bool) (file : TFile) (b : Nat)
    (hbit : tor.bitfield = some bitfield) :
    getBufferAhead (some tor) file b =
      getBufferAheadLoop bitfield tor.pieceLength (file.offset + b) (file.offset + file.length)
        ((file.offset + b) / tor.pieceLength)
        ((file.offset + file.length) / tor.pieceLength + 1 -
          (file.offset + b) / tor.pieceLength) := by
  simp only [getBufferAhead, hbit]

/-- C5: over a torrent whose pieces are all available, getBufferAhead at any
byteInFile between 0 and file.length equals exactly file.length - byteInFile. -/
theorem c5_bufferAhead_full_availability (tor : Torrent) (bitfield : Nat → Bool)
    (file : TFile) (b : Nat) (hbit : tor.bitfield = some bitfield)
    (hall : ∀ p, bitfield p = true) (hpl : 0 < tor.pieceLength) (hb : b ≤ file.length) :
    getBufferAhead (some tor) file b = (file.length : Int) - (b : Int) := by
  rw [getBufferAhead_eq tor bitfield file b hbit]
  set pl := tor.pieceLength with hpldef
  set a := file.offset + b with hadef
  set fE := file.offset + file.length with hfEdef
  have hafE : a ≤ fE := by omega
  have hsE : a / pl ≤ fE / pl := Nat.div_le_div_right hafE
  have hk : 0 < fE / pl + 1 - a / pl := by omega
  have ha1 : a ≤ (a / pl + 1) * pl := (lt_div_succ_mul a pl hpl).le
  have hml : ∀ j, j < fE / pl + 1 - a / pl → (a / pl + j) * pl ≤ fE := by
    intro j hj
    exact mul_le_of_le_div _ fE pl (by omega)
  have hend : fE ≤ (a / pl + (fE / pl + 1 - a / pl)) * pl := by
    rw [show a / pl + (fE / pl + 1 - a / pl) = fE / pl + 1 from by omega]
    exact (lt_div_succ_mul fE pl hpl).le
  have key := getBufferAheadLoop_full bitfield pl a fE (fE / pl + 1 - a / pl) (a / pl) hk
    (fun j _ => hall _) ha1 hml hend
  rw [key, max_eq_right (Nat.div_mul_le_self a pl)]
  omega

/-- C9: getBufferAhead never returns a negative value and never exceeds the
bytes remaining in the file past the given position. -/
theorem c9_bufferAhead_bounds (t : Option Torrent) (file : TFile) (b : Nat)
    (hpl : ∀ tor, t = some tor → 0 < tor.pieceLength) (hb : b ≤ file.length) :
    0 ≤ getBufferAhead t file b ∧
    getBufferAhead t file b ≤ (file.length : Int) - (b : Int) := by
  cases t with
  | none =>
    simp only [getBufferAhead]
    refine ⟨le_refl 0, ?_⟩
    omega
  | some tor =>
    cases hbit : tor.bitfield with
    | none =>
      simp only [getBufferAhead, hbit]
      refine ⟨le_refl 0, ?_⟩
      omega
    | some bitfield =>
      have hpl' := hpl tor rfl
      rw [getBufferAhead_eq tor bitfield file b hbit]
      set pl := tor.pieceLength with hpldef
      set a := file.offset + b with hadef
      set fE := file.offset + file.length with hfEdef
      have hafE : a ≤ fE := by omega
      have hsE : a / pl ≤ fE / pl := Nat.div_le_div_right hafE
      constructor
      · apply getBufferAheadLoop_nonneg bitfield pl a fE _ _ hafE
          (lt_div_succ_mul a pl hpl').le
        intro j hj
        exact mul_le_of_le_div _ fE pl (by omega)
      · have hle := getBufferAheadLoop_le bitfield pl a fE
          (fE / pl + 1 - a / pl) (a / pl)
        rw [max_eq_right (Nat.div_mul_le_self a pl), min_eq_right hafE] at hle
        omega

/-- C3 counterexample: with piece 0 missing and all later pieces present,
getBufferAhead is 0 at byte 0 but 20 at byte 10 of the same 30-byte file,
so it is not monotonically non-increasing in byteInFile. -/
theorem c3_counterexample :
    getBufferAhead (some T3) F3 0 = 0 ∧ getBufferAhead (some T3) F3 10 = 20 ∧
    ¬ (getBufferAhead (some T3) F3 10 ≤ getBufferAhead (some T3) F3 0) := by decide

/-- C3 (amended): for positions b1 and b2 with b1 at most b2 inside the file,
getBufferAhead at b2 is at most getBufferAhead at b1 provided every piece from
the one containing b1 up to (excluding) the one containing b2 is available;
and getBufferAhead is 0 at every position whose containing piece is missing. -/
theorem c3_bufferAhead_monotone_on_available_run (tor : Torrent) (bitfield : Nat → Bool)
    (file : TFile) (b1 b2 : Nat) (hbit : tor.bitfield = some bitfield)
    (hpl : 0 < tor.pieceLength) (h12 : b1 ≤ b2) (hb2 : b2 ≤ file.length)
    (hrun : ∀ p, (file.offset + b1) / tor.pieceLength ≤ p →
        p < (file.offset + b2) / tor.pieceLength → bitfield p = true) :
    getBufferAhead (some tor) file b2 ≤ getBufferAhead (some tor) file b1 ∧
    ∀ b, bitfield ((file.offset + b) / tor.pieceLength) = false →
      getBufferAhead (some tor) file b = 0 := by
  constructor
  · rw [getBufferAhead_eq tor bitfield file b1 hbit, getBufferAhead_eq tor bitfield file b2 hbit]
    set pl := tor.pieceLength with hpldef
    set a1 := file.offset + b1 with ha1def
    set a2 := file.offset + b2 with ha2def
    set fE := file.offset + file.length with hfEdef
    have ha12 : a1 ≤ a2 := by omega
    have ha2fE : a2 ≤ fE := by omega
    have hs12 : a1 / pl ≤ a2 / pl := Nat.div_le_div_right ha12
    have hs2E : a2 / pl ≤ fE / pl := Nat.div_le_div_right ha2fE
    have step1 : getBufferAheadLoop bitfield pl a2 fE (a2 / pl) (fE / pl + 1 - a2 / pl) ≤
        getBufferAheadLoop bitfield pl a1 fE (a2 / pl) (fE / pl + 1 - a2 / pl) :=
      getBufferAheadLoop_mono_abs bitfield pl fE _ _ a1 a2 ha12
    have hcd : a1 / pl + (a2 / pl - a1 / pl) = a2 / pl := by omega
    have walk := getBufferAheadLoop_walk bitfield pl a1 fE (fE / pl)
      (a2 / pl - a1 / pl) (a1 / pl)
      (fun j hj => hrun (a1 / pl + j) (by omega) (by omega))
      (fun j hj => mul_le_of_le_div _ fE pl (by omega))
      (lt_div_succ_mul a1 pl hpl).le
      (by omega)
      (by omega)
    rw [hcd] at walk
    exact le_trans step1 walk
  · intro b hfalse
    rw [getBufferAhead_eq tor bitfield file b hbit]
    exact getBufferAheadLoop_first_unavail _ _ _ _ _ _ hfalse

/-- C3 witness: concrete instance of the amended monotonicity over an
available run, and of the zero value at a missing containing piece. -/
theorem c3_witness :
    getBufferAhead (some T3) F3 20 ≤ getBufferAhead (some T3) F3 10 ∧
    getBufferAhead (some T3) F3 0 = 0 := by
  have h := c3_bufferAhead_monotone_on_available_run T3 (fun p => p != 0) F3 10 20 rfl
    (by decide) (by decide) (by decide)
    (by intro p h1 h2
        norm_num [T3, F3] at h1 h2
        have hp : p = 1 := by omega
        subst hp; decide)
  exact ⟨h.1, h.2 0 (by decide)⟩

/-- C5 witness: over a fully available torrent, getBufferAhead at byte 7 of
the 30-byte file is exactly 23. -/
theorem c5_bufferAhead_full_availability_witness :
    getBufferAhead (some T5) F3 7 = (F3.length : Int) - ((7 : Nat) : Int) :=
  c5_bufferAhead_full_availability T5 (fun _ => true) F3 7 rfl (fun _ => rfl)
    (by decide) (by decide)

/-- C9 witness: the bounds hold at byte 10 of the 30-byte file over the
partially available torrent. -/
theorem c9_bufferAhead_bounds_witness :
    0 ≤ getBufferAhead (some T3) F3 10 ∧
    getBufferAhead (some T3) F3 10 ≤ (F3.length : Int) - ((10 : Nat) : Int) :=
  c9_bufferAhead_bounds (some T3) F3 10
    (by intro tor h
        injection h with h2
        rw [← h2]
        decide)
    (by decide)

end TorrentStream

namespace TorrentStream

/-- Unfolded form of prioritizePiecesFrom for an active torrent whose
pieces array is present. -/
theorem prioritizePiecesFrom_eq (tor : Torrent) (file : TFile) (startByte : Nat)
    (hpc : tor.pieces = true) :
    prioritizePiecesFrom (some tor) file startByte =
      some ((file.offset + startByte) / tor.pieceLength,
        min ((file.offset + startByte) / tor.pieceLength +
            min ((5 * 1024 * 1024 + tor.pieceLength - 1) / tor.pieceLength) 50)
          ((file.offset + file.length) / tor.pieceLength)) := by
  simp [prioritizePiecesFrom, hpc]

/-- C4 counterexample: on a 100-byte file over 10-byte pieces (file end on
a piece boundary), prioritizing from byte 95 returns endPiece 10, which is
strictly beyond piece 9, the last piece index overlapping the file. -/
theorem c4_counterexample :
    prioritizePiecesFrom (some T4) F4 95 = some (9, 10) ∧
    (F4.offset + F4.length - 1) / T4.pieceLength < 10 := by decide

/-- C4 (amended): the endPiece returned by prioritizePiecesFrom never
exceeds floor(fileEnd / pieceLength); when the file end is not an exact
multiple of the piece length this is the last piece overlapping the file,
so the returned endPiece starts strictly before the file end. -/
theorem c4_prioritize_endPiece_clamped (t : Option Torrent) (tor : Torrent) (file : TFile)
    (startByte s e : Nat) (ht : t = some tor) (_hpl : 0 < tor.pieceLength)
    (hpc : tor.pieces = true)
    (hw : prioritizePiecesFrom t file startByte = some (s, e)) :
    e ≤ (file.offset + file.length) / tor.pieceLength ∧
    ((file.offset + file.length) % tor.pieceLength ≠ 0 →
      e * tor.pieceLength < file.offset + file.length) := by
  subst ht
  rw [prioritizePiecesFrom_eq tor file startByte hpc, Option.some_inj] at hw
  simp only [Prod.mk.injEq] at hw
  obtain ⟨hs, he⟩ := hw
  constructor
  · rw [← he]
    exact min_le_right _ _
  · intro hmod
    have hE : e ≤ (file.offset + file.length) / tor.pieceLength := by
      rw [← he]; exact min_le_right _ _
    have h3 := Nat.div_add_mod (file.offset + file.length) tor.pieceLength
    have hmodpos : 0 < (file.offset + file.length) % tor.pieceLength :=
      Nat.pos_of_ne_zero hmod
    have hlt : tor.pieceLength * ((file.offset + file.length) / tor.pieceLength) <
        file.offset + file.length := by
      have h4 : tor.pieceLength * ((file.offset + file.length) / tor.pieceLength) <
          tor.pieceLength * ((file.offset + file.length) / tor.pieceLength) +
            (file.offset + file.length) % tor.pieceLength :=
        Nat.lt_add_of_pos_right hmodpos
      rwa [h3] at h4
    calc e * tor.pieceLength
        ≤ ((file.offset + file.length) / tor.pieceLength) * tor.pieceLength :=
          Nat.mul_le_mul_right _ hE
      _ = tor.pieceLength * ((file.offset + file.length) / tor.pieceLength) :=
          Nat.mul_comm _ _
      _ < file.offset + file.length := hlt

/-- C4 witness: on the 95-byte file (end not piece-aligned) the clamped
endPiece 9 is at most the quotient and starts strictly before the file end. -/
theorem c4_prioritize_endPiece_witness :
    9 ≤ (F4w.offset + F4w.length) / T4w.pieceLength ∧
    ((F4w.offset + F4w.length) % T4w.pieceLength ≠ 0 →
      9 * T4w.pieceLength < F4w.offset + F4w.length) :=
  c4_prioritize_endPiece_clamped (some T4w) T4w F4w 0 0 9 rfl (by decide) rfl (by decide)

/-- C7: POST /api/playback-position answers noActiveTorrent when there is
no active ready torrent, fileNotFound when the file index does not name an
existing file, and otherwise returns bytePosition equal to
floor(currentTime / duration * file.length) when duration is positive and
0 when duration is nonpositive. -/
theorem c7_playback_position_report (st : ServerState) (tor : Torrent) (fileIndex : Int)
    (file : TFile) (currentTime duration : ℚ) :
    (st.currentTorrent = none →
      (playbackPositionEndpoint st fileIndex currentTime duration).1 =
        PlaybackResponse.noActiveTorrent) ∧
    (st.currentTorrent = some tor → tor.ready = false →
      (playbackPositionEndpoint st fileIndex currentTime duration).1 =
        PlaybackResponse.noActiveTorrent) ∧
    (st.currentTorrent = some tor → tor.ready = true →
      jsFileAccess tor.files fileIndex = none →
      (playbackPositionEndpoint st fileIndex currentTime duration).1 =
        PlaybackResponse.fileNotFound) ∧
    (st.currentTorrent = some tor → tor.ready = true →
      jsFileAccess tor.files fileIndex = some file →
      (0 < duration →
        (playbackPositionEndpoint st fileIndex currentTime duration).1 =
          PlaybackResponse.success
            (Int.floor (currentTime / duration * (file.length : ℚ)))) ∧
      (duration ≤ 0 →
        (playbackPositionEndpoint st fileIndex currentTime duration).1 =
          PlaybackResponse.success 0)) := by
  refine ⟨?_, ?_, ?_, ?_⟩
  · intro h
    simp [playbackPositionEndpoint, h]
  · intro h hready
    simp [playbackPositionEndpoint, h, hready]
  · intro h hready hfile
    simp [playbackPositionEndpoint, h, hready, hfile]
  · intro h hready hfile
    constructor
    · intro hd
      simp [playbackPositionEndpoint, h, hready, hfile, if_pos hd]
    · intro hd
      simp [playbackPositionEndpoint, h, hready, hfile, if_neg (not_lt.mpr hd)]

/-- C7 witness: reporting currentTime 30 of duration 60 on the 100 MiB file
yields bytePosition 52428800, and the same call with no torrent fails with
the no-active-torrent error. -/
theorem c7_playback_position_witness :
    (playbackPositionEndpoint ST7 0 30 60).1 = PlaybackResponse.success 52428800 ∧
    (playbackPositionEndpoint ST7none 0 30 60).1 = PlaybackResponse.noActiveTorrent := by
  constructor
  · have h := (c7_playback_position_report ST7 T7 0 F7 30 60).2.2.2 rfl rfl (by decide)
    have h2 := h.1 (by norm_num)
    rw [h2]
    norm_num [F7]
  · exact (c7_playback_position_report ST7none T7 0 F7 30 60).1 rfl

/-- C10: DELETE /api/torrent always answers success true; with no active
torrent the destroy is a no-op leaving the state unchanged, and deleting
twice gives the same response and state as deleting once. -/
theorem c10_delete_idempotent (st : ServerState) :
    (deleteTorrentEndpoint st).1 = { success := true } ∧
    (st.currentTorrent = none → (deleteTorrentEndpoint st).2 = st) ∧
    (deleteTorrentEndpoint ((deleteTorrentEndpoint st).2)).1 = (deleteTorrentEndpoint st).1 ∧
    (deleteTorrentEndpoint ((deleteTorrentEndpoint st).2)).2 = (deleteTorrentEndpoint st).2 := by
  obtain ⟨t, pos⟩ := st
  cases t <;> simp [deleteTorrentEndpoint, destroyCurrentTorrent]

/-- C10 witness: deleting with no active torrent answers success true and
leaves the state unchanged. -/
theorem c10_delete_idempotent_witness :
    (deleteTorrentEndpoint ST10).1 = { success := true } ∧
    (deleteTorrentEndpoint ST10).2 = ST10 :=
  ⟨(c10_delete_idempotent ST10).1, (c10_delete_idempotent ST10).2.1 rfl⟩

/-- C2 counterexample: destroying the active torrent via DELETE /api/torrent
clears the torrent but leaves the previously reported playback position
(fileIndex 0, bytePosition 5) in place, so the slot does not equal the
reset value (none, 0) after the torrent change. -/
theorem c2_counterexample :
    (deleteTorrentEndpoint ST2).2.currentTorrent = none ∧
    (deleteTorrentEndpoint ST2).2.currentPlaybackPosition ≠ initialPlaybackPosition := by
  refine ⟨rfl, ?_⟩
  decide

/-- C2 (amended): neither DELETE /api/torrent nor the torrent replacement
of POST /api/torrent writes the playback-position slot: the previous
position is retained unchanged across the torrent change; only the current
torrent reference changes. -/
theorem c2_position_retained (st : ServerState) (newTorrent : Torrent) :
    (deleteTorrentEndpoint st).2.currentPlaybackPosition = st.currentPlaybackPosition ∧
    (postTorrentEndpointState st newTorrent).currentPlaybackPosition =
      st.currentPlaybackPosition ∧
    (postTorrentEndpointState st newTorrent).currentTorrent = some newTorrent ∧
    (deleteTorrentEndpoint st).2.currentTorrent = none := by
  obtain ⟨t, pos⟩ := st
  cases t <;>
    simp [deleteTorrentEndpoint, destroyCurrentTorrent, postTorrentEndpointState]

end TorrentStream

namespace TorrentStream

/-- Unfolded form of the stream endpoint on the ranged path: active ready
torrent, existing file, and a truthy (present, non-empty) Range header. -/
theorem streamEndpoint_ranged_eq (tor : Torrent) (file : TFile) (p r : String)
    (hready : tor.ready = true)
    (hfile : jsFileAccessNum tor.files (jsParseInt p) = some file) (hr : r ≠ ("")) :
    streamEndpoint (some tor) p (some r) =
      StreamResponse.ranged (parseRangeParts r file.length).1
        (parseRangeParts r file.length).2
        (jsAdd1 (jsSub (parseRangeParts r file.length).2 (parseRangeParts r file.length).1))
        file.length (contentTypeFor file.name) := by
  simp [streamEndpoint, hready, hfile, hr]

/-- C1 counterexample: on the active ready 10000-byte file, the malformed
Range header value foo is served with status 206, not the unranged status
200 with the full Content-Length. -/
theorem c1_counterexample :
    (streamEndpoint (some T1) ("0") (some ("foo"))).status = 206 ∧
    ¬ ((streamEndpoint (some T1) ("0") (some ("foo"))).status = 200 ∧
       (streamEndpoint (some T1) ("0") (some ("foo"))).contentLength =
         some (some 10000)) := by
  decide

/-- C1 (amended): a present non-empty Range header, malformed or not, is
never served on the Unranged path: the response is always the Ranged one,
status 206, with Content-Range echoing whatever parseRangeParts produced
(NaN for an unparseable start, fileLength - 1 for a missing end); the
request still does not fail. -/
theorem c1_malformed_range_stays_ranged (t : Option Torrent) (tor : Torrent) (file : TFile)
    (p r : String) (ht : t = some tor) (hready : tor.ready = true)
    (hfile : jsFileAccessNum tor.files (jsParseInt p) = some file) (hr : r ≠ ("")) :
    (streamEndpoint t p (some r)).status = 206 ∧
    (streamEndpoint t p (some r)).contentRange =
      some ((parseRangeParts r file.length).1, (parseRangeParts r file.length).2,
        file.length) := by
  subst ht
  rw [streamEndpoint_ranged_eq tor file p r hready hfile hr]
  exact ⟨rfl, rfl⟩

/-- C1 witness: the malformed Range header foo on the 10000-byte file is
served ranged with status 206, echoing the NaN start and defaulted end. -/
theorem c1_malformed_range_witness :
    (streamEndpoint (some T1) ("0") (some ("foo"))).status = 206 ∧
    (streamEndpoint (some T1) ("0") (some ("foo"))).contentRange =
      some ((parseRangeParts ("foo") F1.length).1, (parseRangeParts ("foo") F1.length).2,
        F1.length) :=
  c1_malformed_range_stays_ranged (some T1) T1 F1 ("0") ("foo") rfl rfl (by decide)
    (by decide)

/-- C6: a well-formed Range header whose two parts parse as numbers start
and end is answered with status 206, Content-Range bytes start-end/size,
Accept-Ranges bytes, and Content-Length end - start + 1; a missing end part
is defaulted by parseRangeParts to fileLength - 1. -/
theorem c6_ranged_request_headers (t : Option Torrent) (tor : Torrent) (file : TFile)
    (p r : String) (s e : Int) (ht : t = some tor) (hready : tor.ready = true)
    (hfile : jsFileAccessNum tor.files (jsParseInt p) = some file) (hr : r ≠ (""))
    (hparse : parseRangeParts r file.length = (some s, some e)) :
    (streamEndpoint t p (some r)).status = 206 ∧
    (streamEndpoint t p (some r)).contentRange = some (some s, some e, file.length) ∧
    (streamEndpoint t p (some r)).acceptRanges = some ("bytes") ∧
    (streamEndpoint t p (some r)).contentLength = some (some (e - s + 1)) := by
  subst ht
  rw [streamEndpoint_ranged_eq tor file p r hready hfile hr, hparse]
  exact ⟨rfl, rfl, rfl, rfl⟩

/-- C6 witness: Range bytes=0-999 against the 10000-byte file yields 206,
Content-Range bytes 0-999/10000, Accept-Ranges bytes, Content-Length 1000. -/
theorem c6_ranged_request_headers_witness :
    (streamEndpoint (some T1) ("0") (some ("bytes=0-999"))).status = 206 ∧
    (streamEndpoint (some T1) ("0") (some ("bytes=0-999"))).contentRange =
      some (some 0, some 999, 10000) ∧
    (streamEndpoint (some T1) ("0") (some ("bytes=0-999"))).acceptRanges = some ("bytes") ∧
    (streamEndpoint (some T1) ("0") (some ("bytes=0-999"))).contentLength =
      some (some 1000) := by
  have h := c6_ranged_request_headers (some T1) T1 F1 ("0") ("bytes=0-999") 0 999 rfl rfl
    (by decide) (by decide) (by decide)
  exact ⟨h.1, h.2.1.trans (by decide), h.2.2.1, h.2.2.2.trans (by decide)⟩

/-- C8: the stream endpoint never answers 416 on any input, and any Range
header whose two parts parse as numbers start and end is echoed exactly in
a 206 Content-Range, even when start exceeds end or end is not below the
file length. -/
theorem c8_range_echo_never_416 (t : Option Torrent) (p : String) (r : Option String)
    (tor : Torrent) (file : TFile) (rs : String) (s e : Int) :
    (streamEndpoint t p r).status ≠ 416 ∧
    (t = some tor → tor.ready = true →
      jsFileAccessNum tor.files (jsParseInt p) = some file →
      r = some rs → rs ≠ ("") →
      parseRangeParts rs file.length = (some s, some e) →
      (streamEndpoint t p r).status = 206 ∧
      (streamEndpoint t p r).contentRange = some (some s, some e, file.length)) := by
  constructor
  · cases h : streamEndpoint t p r <;> simp [StreamResponse.status]
  · intro ht hready hfile hr hrs hparse
    subst ht
    subst hr
    rw [streamEndpoint_ranged_eq tor file p rs hready hfile hrs, hparse]
    exact ⟨rfl, rfl⟩

/-- C8 witness: Range bytes=10500-10000 (start above end, end at the file
length) against the 10000-byte file is echoed exactly in a 206 response,
and the status is not 416. -/
theorem c8_range_echo_never_416_witness :
    (streamEndpoint (some T1) ("0") (some ("bytes=10500-10000"))).status ≠ 416 ∧
    (streamEndpoint (some T1) ("0") (some ("bytes=10500-10000"))).status = 206 ∧
    (streamEndpoint (some T1) ("0") (some ("bytes=10500-10000"))).contentRange =
      some (some 10500, some 10000, 10000) := by
  have h := c8_range_echo_never_416 (some T1) ("0") (some ("bytes=10500-10000")) T1 F1
    ("bytes=10500-10000") 10500 10000
  have h2 := h.2 rfl rfl (by decide) rfl (by decide) (by decide)
  exact ⟨h.1, h2.1, h2.2.trans (by decide)⟩

end TorrentStream
